import Mathlib

/-!
Verification development for the differential-evolution pixel attack
(`src/differential_evolution.py`).

The Python module is shallowly embedded:
* numpy / torch arrays of shape (num_candidates, num_pixels, dim) become
  `List (List (List ℚ))` (`Pop`), one inner list per pixel unit;
* an image tensor of shape (channels, H, W) becomes `List (List (List ℚ))`
  (`Image`);
* the classifier (`model`) is an opaque parameter `Image → List ℚ` returning
  the per-class logits of one image (batched calls are `List.map model`);
* randomness (`np.random.choice`, `np.random.uniform`) is passed in
  explicitly: the three sampled pool indices per agent and the per-pixel
  uniform draws for the crossover mask;
* fallible tensor operations (python assert, index errors, broadcasting
  errors, empty reductions) return `Except PyError` / `Option`.
-/

namespace PixelAttack

/-- One pixel unit: `dim` scalars (2 for an (x, y) coordinate pair,
`channels` for a colour vector). -/
abbrev Unit1 := List ℚ

/-- One agent: `num_pixels` pixel units. -/
abbrev Agent := List Unit1

/-- A population array of shape (num_candidates, num_pixels, dim). -/
abbrev Pop := List Agent

/-- An image tensor of shape (channels, H, W). -/
abbrev Image := List (List (List ℚ))

/-- Ternary pointwise zip, the model of elementwise numpy operations on three
equally-shaped arrays (truncating on ragged input, which well-formed numpy
arrays never are). -/
def zip3With (f : α → β → γ → δ) : List α → List β → List γ → List δ
  | a :: as, b :: bs, c :: cs => f a b c :: zip3With f as bs cs
  | _, _, _ => []

/-- Floor of a rational, computably (`Int.fdiv` is flooring division). -/
def qfloor (q : ℚ) : ℤ := Int.fdiv q.num q.den

/-- `np.rint` on a rational: round to the nearest integer, ties to even. -/
def rintZ (q : ℚ) : ℤ :=
  let f := qfloor q
  let r := q - (f : ℚ)
  if r < 1/2 then f
  else if 1/2 < r then f + 1
  else if f % 2 = 0 then f else f + 1

/-- `np.rint` followed by `astype(int)`, kept inside ℚ. -/
def rintQ (q : ℚ) : ℚ := (rintZ q : ℚ)

/-- `np.delete(arr, i, 0)`: drop row `i`. -/
def np_delete (l : List α) (i : Nat) : List α := l.eraseIdx i

/-- Original-population index of entry `j` of `np.delete(pop, i, 0)`:
entries before `i` keep their index, entries from `i` on shift up by one. -/
def poolToOrig (i j : Nat) : Nat := if j < i then j else j + 1

/-- The mutated proposal `parents[0] + F*(parents[1] - parents[2])`,
elementwise over all pixel units and dims, rounded to the nearest integer
when `round_` is set (source lines 45–48). -/
def proposalAgent (A B C : Agent) (F : ℚ) (round_ : Bool) : Agent :=
  zip3With (zip3With (fun x y z =>
    if round_ then rintQ (x + F * (y - z)) else x + F * (y - z))) A B C

/-- Body of the `generate_children` loop for agent `i` (source lines 37–54):
remove parent `i` from the pool, pick the three sampled parents, build the
proposal, and apply the per-pixel-unit crossover mask
`np.random.uniform(size=num_pixels) < cr_prob` broadcast over dims via
`np.where(np.expand_dims(mask, 1), potential_child, parent_candidates[i])`.
The three pool indices `a b c` and the uniform draws `mdraw` are the
explicit randomness. -/
def mutate1 (pop : Pop) (i a b c : Nat) (mdraw : List ℚ) (cr F : ℚ)
    (round_ : Bool) : Agent :=
  let pool := np_delete pop i
  let potential_child :=
    proposalAgent (pool.getD a []) (pool.getD b []) (pool.getD c []) F round_
  let mask := mdraw.map (fun u => decide (u < cr))
  zip3With (fun m pcu paru => if m then pcu else paru)
    mask potential_child (pop.getD i [])

/-- `generate_children` (source lines 13–58), with the randomness passed in:
`idxDraws` holds the three `np.random.choice(len(pool), size=3, replace=True)`
indices per agent and `maskDraws` the `np.random.uniform(size=num_pixels)`
draws per agent. -/
def generate_children (pop : Pop) (cr F : ℚ) (round_ : Bool)
    (idxDraws : List (Nat × Nat × Nat)) (maskDraws : List (List ℚ)) : Pop :=
  (List.range pop.length).map (fun i =>
    let abc := idxDraws.getD i (0, 0, 0)
    mutate1 pop i abc.1 abc.2.1 abc.2.2 (maskDraws.getD i []) cr F round_)

/-- First boundary-repair pass, `np.where(v < 0, -v, v)`
(source lines 188 and 192). -/
def repairLow (v : ℚ) : ℚ := if v < 0 then -v else v

/-- Second coordinate repair pass,
`np.where(v > size-1, size-1-v, v)` (source line 189). -/
def repairHighCoord (size v : ℚ) : ℚ := if v > size - 1 then size - 1 - v else v

/-- Second colour repair pass, `np.where(v > 1, 1.0-v, v)` (source line 193). -/
def repairHighColor (v : ℚ) : ℚ := if v > 1 then 1 - v else v

/-- Scalar coordinate boundary repair as `evolution_step` performs it:
the negative pass followed by the upper-bound pass, in that order. -/
def repairCoord (size v : ℚ) : ℚ := repairHighCoord size (repairLow v)

/-- Scalar colour boundary repair: negative pass then upper-bound pass. -/
def repairColor (v : ℚ) : ℚ := repairHighColor (repairLow v)

/-- Coordinate repair mapped over a population array (source lines 188–189). -/
def repairCoordsPop (size : ℚ) (pop : Pop) : Pop :=
  pop.map (List.map (List.map (repairCoord size)))

/-- Colour repair mapped over a population array (source lines 192–193). -/
def repairColorsPop (pop : Pop) : Pop :=
  pop.map (List.map (List.map repairColor))

/-- Runtime failures of the embedded python/torch code. -/
inductive PyError where
  /-- The `assert` on matching leading shapes (an `AssertionError`,
  the spec's ShapeMismatch condition). -/
  | shapeMismatch : PyError
  /-- An out-of-range index (python `IndexError`). -/
  | indexError : PyError
  /-- torch refusing to broadcast two sizes that differ and are both ≠ 1. -/
  | broadcastError : PyError
  /-- torch `argmax` / `argmin` on an empty tensor. -/
  | emptyReduction : PyError
deriving DecidableEq

/-- Resolve a (possibly negative) python/torch index against axis length `n`:
`0 ≤ v < n` indexes from the front, `-n ≤ v < 0` indexes from the end
(`v + n`), anything else is an `IndexError`. -/
def pyIdx (n : Nat) (v : Int) : Option Nat :=
  if 0 ≤ v ∧ v < (n : Int) then some v.toNat
  else if -(n : Int) ≤ v ∧ v < 0 then some (v + (n : Int)).toNat
  else none

/-- Overwrite entry `(xi, yi)` of one channel plane with `q`. -/
def setChan (ch : List (List ℚ)) (xi yi : Nat) (q : ℚ) : List (List ℚ) :=
  ch.set xi ((ch.getD xi []).set yi q)

/-- The write `new_imgs[i, :, x, y] = torch.from_numpy(pixel_val)`
(source line 87) on a single image: resolve `x` against the H axis and `y`
against the W axis with python index semantics, then overwrite all channels
at that pixel; a colour vector of length 1 broadcasts, any other length
mismatch with the channel count fails. -/
def setPixel (im : Image) (x y : Int) (val : List ℚ) : Option Image := do
  let xi ← pyIdx (im.headD []).length x
  let yi ← pyIdx ((im.headD []).headD []).length y
  if val.length = im.length then
    some (List.zipWith (fun ch q => setChan ch xi yi q) im val)
  else if val.length = 1 then
    some (im.map (fun ch => setChan ch xi yi (val.headD 0)))
  else none

/-- The inner loop of `generate_image_variants` for one agent (source lines
82–87): write pixel `j` at `pixel_locs[j]` with colour `pixel_vals[j]`,
left to right (later writes overwrite earlier ones); running out of colour
rows is the python `IndexError` of `pixel_vals[j]`. -/
def applyAgent (im : Image) : List (Int × Int) → List (List ℚ) → Option Image
  | [], _ => some im
  | _ :: _, [] => none
  | xy :: rest, v :: vs => do
    let im1 ← setPixel im xy.1 xy.2 v
    applyAgent im1 rest vs

/-- `arr.shape[0:2]` of a rank-≥2 numpy array modelled as a nested list
(numpy arrays are rectangular, so the first row's length is the second
dimension). -/
def pyShape2 (l : List (List α)) : Nat × Nat := (l.length, (l.headD []).length)

/-- `generate_image_variants` (source lines 60–88): assert that the leading
two dimensions of the coordinate and colour arrays agree, then produce one
variant per agent by copying the base image (`img.detach().repeat`) and
overwriting that agent's pixels.  The second component of the result is the
base image after the call: every write targets the fresh copy, so it is
returned unchanged. -/
def generate_image_variants (img : Image) (all_candidate_coords : List (List (Int × Int)))
    (all_candidate_pixel_vals : List (List (List ℚ))) :
    Except PyError (List Image × Image) :=
  if pyShape2 all_candidate_coords = pyShape2 all_candidate_pixel_vals then
    match (all_candidate_coords.zip all_candidate_pixel_vals).mapM
        (fun lv => applyAgent img lv.1 lv.2) with
    | some variants => .ok (variants, img)
    | none => .error .indexError
  else .error .shapeMismatch

/-- Length two 1-D tensors broadcast to: equal lengths stay, a length-1
tensor stretches to the other, anything else is a torch error. -/
def bcast2Len (a b : Nat) : Option Nat :=
  if a = b then some a else if a = 1 then some b else if b = 1 then some a else none

/-- Stretch a 1-D tensor to broadcast length `L` (identity when it already
has length `L`, replication when it has length 1). -/
def stretchTo (L : Nat) (xs : List α) : List α :=
  if xs.length = L then xs
  else match xs with
    | [x] => List.replicate L x
    | _ => xs

/-- Binary elementwise torch operation on 1-D tensors, with broadcasting. -/
def bzipWith (f : α → β → γ) (xs : List α) (ys : List β) : Option (List γ) := do
  let L ← bcast2Len xs.length ys.length
  some (List.zipWith f (stretchTo L xs) (stretchTo L ys))

/-- Ternary elementwise torch operation (`torch.where`) on 1-D tensors,
with broadcasting. -/
def bzip3With (f : α → β → γ → δ) (xs : List α) (ys : List β) (zs : List γ) :
    Option (List δ) := do
  let L1 ← bcast2Len xs.length ys.length
  let L ← bcast2Len L1 zs.length
  some (zip3With f (stretchTo L xs) (stretchTo L ys) (stretchTo L zs))

/-- Column `j` of a batch of logit rows, `logits[:, j]` (fails when a row is
too short, as numpy indexing would). -/
def column (rows : List (List ℚ)) (j : Nat) : Option (List ℚ) :=
  rows.mapM (fun r => r.get? j)

/-- Final stage of `evaluation_step` (source lines 126–141): the
mask-selected post-selection logits
`torch.where(update_mask, child_logits[:, k], parent_logits[:, k])` for the
target and actual class, then the `argmax` / `argmin` of the progress
printout, which fail on an empty tensor. -/
def evalSelect (update_mask : List Bool) (ct pt ca pa : List ℚ) :
    Except PyError (List Bool × List ℚ × List ℚ) :=
  match bzip3With (fun m cv pv => if m then cv else pv) update_mask ct pt,
      bzip3With (fun m cv pv => if m then cv else pv) update_mask ca pa with
  | some new_target_logits, some new_actual_logits =>
    if new_target_logits.isEmpty ∨ new_actual_logits.isEmpty then
      .error .emptyReduction
    else .ok (update_mask, new_target_logits, new_actual_logits)
  | _, _ => .error .broadcastError

/-- Middle stage of `evaluation_step` (source lines 113–123): per-agent
divergences (target logit minus actual logit, for child and parent
separately) and the selection mask
`torch.where(child_divergence >= parent_divergence, True, False)` — ties
select the child; the comparison broadcasts and is the first place where
disagreeing batch lengths can fail. -/
def evalCompare (pt pa ct ca : List ℚ) :
    Except PyError (List Bool × List ℚ × List ℚ) :=
  let parent_divergence := List.zipWith (fun x y => x - y) pt pa
  let child_divergence := List.zipWith (fun x y => x - y) ct ca
  match bzipWith (fun cd pd => decide (pd ≤ cd)) child_divergence parent_divergence with
  | none => .error .broadcastError
  | some update_mask => evalSelect update_mask ct pt ca pa

/-- `evaluation_step` (source lines 90–141): query the classifier on the
parent and the child batch unconditionally (there is no shape check),
extract the four logit columns, then compare divergences and select.  The
classifier is queried on both batches before any of the shape-sensitive
steps run. -/
def evaluation_step (model : Image → List ℚ) (parent_imgs child_imgs : List Image)
    (target_class actual_class : Nat) :
    Except PyError (List Bool × List ℚ × List ℚ) :=
  let parent_logits := parent_imgs.map model
  let child_logits := child_imgs.map model
  match column parent_logits target_class, column parent_logits actual_class,
      column child_logits target_class, column child_logits actual_class with
  | some pt, some pa, some ct, some ca => evalCompare pt pa ct ca
  | _, _, _, _ => .error .indexError

/-- The per-agent logit column `logits[:, j]` of a batch, written as a total
function (used under hypotheses that keep `j` in range). -/
def logitColumn (model : Image → List ℚ) (batch : List Image) (j : Nat) : List ℚ :=
  batch.map (fun im => (model im).getD j 0)

/-- The per-agent divergence, target-class logit minus actual-class logit,
of each image variant in a batch. -/
def divergences (model : Image → List ℚ) (batch : List Image)
    (target_class actual_class : Nat) : List ℚ :=
  batch.map (fun im =>
    (model im).getD target_class 0 - (model im).getD actual_class 0)

/-- `stopping_criterion` (source lines 143–162): stop as soon as some
agent's target logit strictly exceeds its actual logit, and report the
indices (`.nonzero()`) of all such agents; otherwise no stop and no agent. -/
def stopping_criterion (target_logits actual_logits : List ℚ) :
    Bool × Option (List Nat) :=
  let gt := List.zipWith (fun t a => decide (a < t)) target_logits actual_logits
  if gt.any (fun b => b) then
    (true, some ((List.range gt.length).filter (fun i => gt.getD i false)))
  else (false, none)

/-- Convert a coordinate unit (a length-2 list, integer-valued after
rounding) to the `(x, y)` integer pair used for indexing. -/
def toPairs (pop : Pop) : List (List (Int × Int)) :=
  pop.map (List.map (fun u => (qfloor (u.getD 0 0), qfloor (u.getD 1 0))))

/-- Per-agent selection `np.where(np.expand_dims(mask, (1,2)), child, parent)`
(source lines 203–204): one boolean per agent picks that agent's whole
child or parent row. -/
def selectPop (mask : List Bool) (child parent : Pop) : Pop :=
  zip3With (fun m c p => if m then c else p) mask child parent

/-- `evolution_step` (source lines 164–206): generate children for the
coordinates (with rounding) and the colours (without), repair boundaries,
composite parent and child image batches, evaluate fitness, test the
stopping criterion, and select the next generation with the single
per-agent mask.  `image_size` is `img.shape[1]`.  Randomness for the two
`generate_children` calls is passed in explicitly. -/
def evolution_step (model : Image → List ℚ) (img : Image)
    (parent_coords parent_pixel_vals : Pop) (target_class actual_class : Nat)
    (cr F : ℚ) (idxC : List (Nat × Nat × Nat)) (mdC : List (List ℚ))
    (idxV : List (Nat × Nat × Nat)) (mdV : List (List ℚ)) :
    Except PyError (List Bool × Pop × Pop × Bool × Option (List Nat)) :=
  let image_size : ℚ := ((img.headD []).length : ℚ)
  let child_coords :=
    repairCoordsPop image_size (generate_children parent_coords cr F true idxC mdC)
  let child_pixel_values :=
    repairColorsPop (generate_children parent_pixel_vals cr F false idxV mdV)
  match generate_image_variants img (toPairs parent_coords) parent_pixel_vals with
  | .error e => .error e
  | .ok (parent_imgs, _) =>
    match generate_image_variants img (toPairs child_coords) child_pixel_values with
    | .error e => .error e
    | .ok (child_imgs, _) =>
      match evaluation_step model parent_imgs child_imgs target_class actual_class with
      | .error e => .error e
      | .ok (update_mask, new_target_logits, new_actual_logits) =>
        let sb := stopping_criterion new_target_logits new_actual_logits
        .ok (update_mask,
             selectPop update_mask child_coords parent_coords,
             selectPop update_mask child_pixel_values parent_pixel_vals,
             sb.1, sb.2)

/-- Accessor: did the embedded computation succeed? -/
def isOkB (r : Except PyError α) : Bool :=
  match r with | .ok _ => true | .error _ => false

/-- Accessor: did the embedded computation fail with the ShapeMismatch
assertion? -/
def isShapeErr (r : Except PyError α) : Bool :=
  match r with | .error .shapeMismatch => true | _ => false

/-- Accessor: selection-mask entry `i` of an `evaluation_step` result. -/
def evalMask (r : Except PyError (List Bool × List ℚ × List ℚ)) (i : Nat) : Bool :=
  match r with | .ok mta => mta.1.getD i false | .error _ => false

/-- Accessor: the image variants of a `generate_image_variants` result. -/
def giVariants (r : Except PyError (List Image × Image)) : List Image :=
  match r with | .ok p => p.1 | .error _ => []

/-- Accessor: the base image after a `generate_image_variants` call. -/
def giBase (r : Except PyError (List Image × Image)) : Image :=
  match r with | .ok p => p.2 | .error _ => []

/-- Entry `(c, x, y)` of an image, by position. -/
def getPix (im : Image) (c x y : Nat) : ℚ := ((im.getD c []).getD x []).getD y 0

/-- Well-formedness of an image tensor: exactly `C` channel planes, each of
`H` rows of length `W`. -/
def ImgWF (im : Image) (C H W : Nat) : Prop :=
  im.length = C ∧ ∀ ch ∈ im, ch.length = H ∧ ∀ row ∈ ch, row.length = W

/-- A concrete two-class stub classifier for witnesses: the target-class
logit is the pixel at `(0,0,0)`, the actual-class logit is `0`. -/
def stubModel : Image → List ℚ := fun im => [getPix im 0 0 0, 0]

/-- A concrete two-class stub classifier reading two pixels, for the
end-to-end witness run. -/
def stubModel2 : Image → List ℚ := fun im => [getPix im 0 0 0, getPix im 0 0 1]

/-! ## Helper lemmas -/

theorem getD_eq_getElem (l : List α) (d : α) {i : Nat} (h : i < l.length) :
    l.getD i d = l[i] := by
  rw [List.getD_eq_getElem?_getD, List.getElem?_eq_getElem h, Option.getD_some]

theorem length_zip3With (f : α → β → γ → δ) :
    ∀ (as : List α) (bs : List β) (cs : List γ),
      (zip3With f as bs cs).length = min as.length (min bs.length cs.length)
  | [], bs, cs => by cases bs <;> cases cs <;> simp [zip3With]
  | a :: as, [], cs => by cases cs <;> simp [zip3With]
  | a :: as, b :: bs, [] => by simp [zip3With]
  | a :: as, b :: bs, c :: cs => by
    simp only [zip3With, List.length_cons, length_zip3With f as bs cs]
    omega

theorem getElem_zip3With (f : α → β → γ → δ) :
    ∀ (as : List α) (bs : List β) (cs : List γ) (i : Nat)
      (h : i < (zip3With f as bs cs).length)
      (ha : i < as.length) (hb : i < bs.length) (hc : i < cs.length),
      (zip3With f as bs cs)[i] = f as[i] bs[i] cs[i]
  | a :: as, b :: bs, c :: cs, 0, _, _, _, _ => rfl
  | a :: as, b :: bs, c :: cs, i + 1, h, ha, hb, hc => by
    simp only [zip3With, List.getElem_cons_succ]
    exact getElem_zip3With f as bs cs i (by simpa [zip3With] using h)
      (by simpa using ha) (by simpa using hb) (by simpa using hc)

theorem getD_zip3With (f : α → β → γ → δ) (as : List α) (bs : List β)
    (cs : List γ) (i : Nat) (da : α) (db : β) (dc : γ) (dd : δ)
    (ha : i < as.length) (hb : i < bs.length) (hc : i < cs.length) :
    (zip3With f as bs cs).getD i dd = f (as.getD i da) (bs.getD i db) (cs.getD i dc) := by
  have hl : i < (zip3With f as bs cs).length := by
    rw [length_zip3With]; omega
  rw [getD_eq_getElem _ _ hl, getD_eq_getElem _ _ ha, getD_eq_getElem _ _ hb,
    getD_eq_getElem _ _ hc, getElem_zip3With f as bs cs i hl ha hb hc]

theorem getD_zipWith (f : α → β → γ) (as : List α) (bs : List β) (i : Nat)
    (da : α) (db : β) (dc : γ) (ha : i < as.length) (hb : i < bs.length) :
    (List.zipWith f as bs).getD i dc = f (as.getD i da) (bs.getD i db) := by
  have hl : i < (List.zipWith f as bs).length := by
    rw [List.length_zipWith]; omega
  rw [getD_eq_getElem _ _ hl, getD_eq_getElem _ _ ha, getD_eq_getElem _ _ hb,
    List.getElem_zipWith]

theorem getD_map (f : α → β) (l : List α) (i : Nat) (da : α) (db : β)
    (h : i < l.length) : (l.map f).getD i db = f (l.getD i da) := by
  have hl : i < (l.map f).length := by simpa using h
  rw [getD_eq_getElem _ _ hl, getD_eq_getElem _ _ h, List.getElem_map]

/-! ## C3: boundary repair -/

/-- C3 counterexample: the claim says a coordinate `v < 0` is replaced by
`-v`, but the code applies the negative-value pass first and then the
upper-bound pass to its output, so for `size = 5` and `v = -10` the result
is `5 - 1 - 10 = -6`, not `-(-10) = 10`. -/
theorem repairCoord_single_rule_cex :
    repairCoord 5 (-10) ≠ -(-10) := by
  norm_num [repairCoord, repairLow, repairHighCoord]

/-- C3 (amended): boundary repair is two sequential elementwise passes —
first every component `v < 0` becomes `-v`, then every component of the
result above the upper bound (`size-1` for coordinates, `1` for colours)
`u` becomes `size-1-u` (resp. `1-u`).  Per original component this means:
a coordinate is `-v` on `[1-size, 0)`, unchanged on `[0, size-1]`,
`size-1-v` above `size-1`, and `size-1+v` below `1-size` (both reflections
fire); colours behave the same with bound `1`.  No clamping, no further
reflection, and no renormalisation across channels. -/
theorem repair_two_pass_piecewise (size v : ℚ) (hsize : 1 ≤ size) :
    (1 - size ≤ v ∧ v < 0 → repairCoord size v = -v) ∧
    (0 ≤ v ∧ v ≤ size - 1 → repairCoord size v = v) ∧
    (size - 1 < v → repairCoord size v = size - 1 - v) ∧
    (v < 1 - size → repairCoord size v = size - 1 + v) ∧
    (-1 ≤ v ∧ v < 0 → repairColor v = -v) ∧
    (0 ≤ v ∧ v ≤ 1 → repairColor v = v) ∧
    (1 < v → repairColor v = 1 - v) ∧
    (v < -1 → repairColor v = 1 + v) := by
  refine ⟨fun h => ?_, fun h => ?_, fun h => ?_, fun h => ?_,
    fun h => ?_, fun h => ?_, fun h => ?_, fun h => ?_⟩ <;>
    simp only [repairCoord, repairColor, repairLow, repairHighCoord,
      repairHighColor] <;>
    split_ifs <;> first | rfl | linarith [h.1, h.2] | linarith

/-- Witness for the amended C3 at `size = 5`, `v = -10`: both passes fire
and the result is `-6`. -/
theorem repair_two_pass_piecewise_witness : repairCoord 5 (-10) = -6 := by
  have h := (repair_two_pass_piecewise 5 (-10) (by norm_num)).2.2.2.1 (by norm_num)
  rw [h]; norm_num

/-! ## C7: the compositing shape assertion -/

/-- C7: `generate_image_variants` fails with the ShapeMismatch condition
exactly when the leading two dimensions (`num_candidates`, `num_pixels`) of
the coordinate array and the colour array disagree; the assert runs before
any image is constructed, so a shape mismatch is reported as ShapeMismatch
even when the pixel writes themselves would also fail. -/
theorem generate_image_variants_shape_check (img : Image)
    (cs : List (List (Int × Int))) (vs : List (List (List ℚ))) :
    isShapeErr (generate_image_variants img cs vs) = true ↔
      pyShape2 cs ≠ pyShape2 vs := by
  by_cases h : pyShape2 cs = pyShape2 vs
  · simp only [generate_image_variants, if_pos h]
    cases hm : (cs.zip vs).mapM (fun lv => applyAgent img lv.1 lv.2) with
    | none => simp [isShapeErr, h]
    | some v => simp [isShapeErr, h]
  · simp [generate_image_variants, if_neg h, isShapeErr, h]

/-! ## C2: the convergence check -/

/-- C2: with post-selection score lists of equal length, `stopping_criterion`
stops exactly when some agent's target logit strictly exceeds its actual
logit; on stopping it reports exactly the indices of those agents, and a
tied agent (`=`) is never among them (the inequality is strict). -/
theorem stopping_criterion_spec (tl al : List ℚ) (h : tl.length = al.length) :
    ((stopping_criterion tl al).1 = true ↔
      ∃ i, i < tl.length ∧ al.getD i 0 < tl.getD i 0) ∧
    ((stopping_criterion tl al).1 = true →
      ∃ idxs, (stopping_criterion tl al).2 = some idxs ∧
        ∀ i, i ∈ idxs ↔ (i < tl.length ∧ al.getD i 0 < tl.getD i 0)) ∧
    ((stopping_criterion tl al).1 = false → (stopping_criterion tl al).2 = none) := by
  have hlen : (List.zipWith (fun t a => decide (a < t)) tl al).length = tl.length := by
    rw [List.length_zipWith]; omega
  have hentry : ∀ i, i < tl.length →
      ((List.zipWith (fun t a => decide (a < t)) tl al).getD i false = true ↔
        al.getD i 0 < tl.getD i 0) := by
    intro i hi
    rw [getD_zipWith _ _ _ _ 0 0 false hi (by omega)]
    exact decide_eq_true_iff
  have hany : ((List.zipWith (fun t a => decide (a < t)) tl al).any (fun b => b) = true) ↔
      ∃ i, i < tl.length ∧ al.getD i 0 < tl.getD i 0 := by
    rw [List.any_eq_true]
    constructor
    · rintro ⟨x, hx, hxb⟩
      obtain ⟨k, hk, hkeq⟩ := List.mem_iff_getElem.mp hx
      have hk' : k < tl.length := by rw [hlen] at hk; exact hk
      refine ⟨k, hk', ?_⟩
      rw [← hentry k hk', getD_eq_getElem _ _ hk, hkeq]
      simpa using hxb
    · rintro ⟨i, hi, hlt⟩
      have hi' : i < (List.zipWith (fun t a => decide (a < t)) tl al).length := by omega
      refine ⟨(List.zipWith (fun t a => decide (a < t)) tl al)[i], List.getElem_mem hi', ?_⟩
      have := (hentry i hi).mpr hlt
      rw [getD_eq_getElem _ _ hi'] at this
      simpa using this
  simp only [stopping_criterion]
  split_ifs with hc
  · refine ⟨by simpa using hany.mp hc, fun _ => ?_, fun hf => by simp at hf⟩
    refine ⟨_, rfl, fun i => ?_⟩
    simp only [List.mem_filter, List.mem_range]
    constructor
    · rintro ⟨hi, hget⟩
      have hi' : i < tl.length := by omega
      exact ⟨hi', (hentry i hi').mp hget⟩
    · rintro ⟨hi, hlt⟩
      exact ⟨by omega, (hentry i hi).mpr hlt⟩
  · refine ⟨?_, fun ht => by simp at ht, fun _ => rfl⟩
    simp only [false_iff]
    intro hex
    exact hc (hany.mpr hex)

/-- Witness for C2 at `target = [1]`, `actual = [0]`: the criterion stops. -/
theorem stopping_criterion_spec_witness : (stopping_criterion [1] [0]).1 = true :=
  (stopping_criterion_spec [1] [0] rfl).1.mpr
    ⟨0, by norm_num, by norm_num [List.getD]⟩

/-! ## C4: parent sampling in generate_children -/

/-- Over a pair of same-shaped agents, the proposal with coinciding second
and third parents collapses to the first parent (rounded when requested):
the differential `F * (b - c)` vanishes. -/
theorem proposal_unit_dup (F : ℚ) (r : Bool) :
    ∀ (u v : Unit1), u.length = v.length →
      zip3With (fun x y z =>
        if r then rintQ (x + F * (y - z)) else x + F * (y - z)) u v v =
        u.map (fun x => if r then rintQ x else x)
  | [], [], _ => rfl
  | [], _ :: _, h => by simp at h
  | _ :: _, [], h => by simp at h
  | x :: xs, y :: ys, h => by
    simp only [zip3With, List.map_cons, List.cons.injEq]
    exact ⟨by rw [sub_self, mul_zero, add_zero],
      proposal_unit_dup F r xs ys (by simpa using h)⟩

/-- Agent-level version of `proposal_unit_dup`. -/
theorem proposalAgent_dup (F : ℚ) (r : Bool) :
    ∀ (A B : Agent), A.map List.length = B.map List.length →
      proposalAgent A B B F r = A.map (List.map (fun x => if r then rintQ x else x))
  | [], [], _ => rfl
  | [], _ :: _, h => by simp at h
  | _ :: _, [], h => by simp at h
  | a :: as, b :: bs, h => by
    simp only [List.map_cons, List.cons.injEq] at h
    simp only [proposalAgent, zip3With, List.map_cons, List.cons.injEq]
    exact ⟨proposal_unit_dup F r a b h.1, by
      have := proposalAgent_dup F r as bs h.2
      simpa [proposalAgent] using this⟩

/-- Child `i` of `generate_children` is `mutate1` applied to the `i`-th
sampled indices and mask draws. -/
theorem generate_children_get (pop : Pop) (cr F : ℚ) (r : Bool)
    (idx : List (Nat × Nat × Nat)) (md : List (List ℚ)) (i : Nat)
    (hi : i < pop.length) :
    (generate_children pop cr F r idx md).get? i =
      some (mutate1 pop i (idx.getD i (0, 0, 0)).1 (idx.getD i (0, 0, 0)).2.1
        (idx.getD i (0, 0, 0)).2.2 (md.getD i []) cr F r) := by
  have hi' : i < ((List.range pop.length).map (fun i =>
      let abc := idx.getD i (0, 0, 0)
      mutate1 pop i abc.1 abc.2.1 abc.2.2 (md.getD i []) cr F r)).length := by
    simpa using hi
  simp only [generate_children]
  rw [List.get?_eq_getElem?, List.getElem?_eq_getElem hi']
  simp [List.getElem_map, List.getElem_range]

/-- C4: the three parents of child `i` are sampled from
`np.delete(parent_candidates, i, 0)`.  Position `j` of that pool is original
agent `poolToOrig i j`; the first three conjuncts show this map is a
bijection from the pool positions `0..N-2` onto the agents other than `i`
(so the three uniform-with-replacement draws of `np.random.choice` induce
independent uniform draws over all agents excluding `i`, and no draw can
ever be `i`); the fourth conjunct ties the map to `np_delete`; the fifth
shows `generate_children` builds child `i` from exactly those pool draws;
the last shows a duplicate draw `b = c` is accepted and yields a zero
differential (the proposal is parent `a` unchanged, up to rounding). -/
theorem generate_children_sampling (N i : Nat) (hi : i < N) :
    (∀ j, j < N - 1 → poolToOrig i j < N ∧ poolToOrig i j ≠ i) ∧
    (∀ k, k < N → k ≠ i → ∃ j, j < N - 1 ∧ poolToOrig i j = k) ∧
    (∀ j j', j < N - 1 → j' < N - 1 → poolToOrig i j = poolToOrig i j' → j = j') ∧
    (∀ (pop : Pop), pop.length = N → ∀ j, j < N - 1 →
      (np_delete pop i).get? j = pop.get? (poolToOrig i j)) ∧
    (∀ (pop : Pop) (cr F : ℚ) (r : Bool) (idx : List (Nat × Nat × Nat))
      (md : List (List ℚ)), pop.length = N →
      (generate_children pop cr F r idx md).get? i =
        some (mutate1 pop i (idx.getD i (0, 0, 0)).1 (idx.getD i (0, 0, 0)).2.1
          (idx.getD i (0, 0, 0)).2.2 (md.getD i []) cr F r)) ∧
    (∀ (A B : Agent) (F : ℚ) (r : Bool), A.map List.length = B.map List.length →
      proposalAgent A B B F r = A.map (List.map (fun x => if r then rintQ x else x))) := by
  refine ⟨?_, ?_, ?_, ?_, ?_, fun A B F r h => proposalAgent_dup F r A B h⟩
  · intro j hj
    unfold poolToOrig; split <;> omega
  · intro k hk hki
    by_cases hki2 : k < i
    · exact ⟨k, by omega, by unfold poolToOrig; rw [if_pos hki2]⟩
    · exact ⟨k - 1, by omega, by unfold poolToOrig; rw [if_neg (by omega)]; omega⟩
  · intro j j' hj hj' heq
    unfold poolToOrig at heq
    revert heq; split <;> split <;> omega
  · intro pop hpop j hj
    have hi' : i < pop.length := by omega
    have hll : (np_delete pop i).length = N - 1 := by
      simp only [np_delete, List.length_eraseIdx, hpop]
      rw [if_pos hi]
    have hjlt : j < (np_delete pop i).length := by omega
    have hor : poolToOrig i j < pop.length := by
      unfold poolToOrig; split <;> omega
    rw [List.get?_eq_getElem?, List.get?_eq_getElem?,
      List.getElem?_eq_getElem hjlt, List.getElem?_eq_getElem hor]
    apply congrArg
    simp only [np_delete, List.getElem_eraseIdx]
    unfold poolToOrig
    split <;> rfl
  · intro pop cr F r idx md hpop
    exact generate_children_get pop cr F r idx md i (by omega)

/-- Witness for C4 at `N = 3`, `i = 1`, pool position `j = 1`: the sampled
original index is in range and differs from `i`. -/
theorem generate_children_sampling_witness :
    poolToOrig 1 1 < 3 ∧ poolToOrig 1 1 ≠ 1 :=
  (generate_children_sampling 3 1 (by norm_num)).1 1 (by norm_num)

/-! ## C5: the crossover mask -/

/-- C5: in `generate_children`, the crossover decision for child `i` is one
uniform draw per pixel unit (`np.random.uniform(size=num_pixels) < cr_prob`,
a boolean vector of length `num_pixels`): whenever unit `j`'s draw is below
`cr`, the child's whole unit `j` (all `dim` scalars together) is the
proposal `parent[a] + F*(parent[b] - parent[c])` at unit `j` (rounded when
rounding is requested, as `proposalAgent` does); otherwise it is parent
`i`'s original unit `j`.  The mask never splits the scalars of one unit. -/
theorem generate_children_crossover_mask
    (pop : Pop) (i a b c : Nat) (mdraw : List ℚ) (cr F : ℚ) (r : Bool)
    (idx : List (Nat × Nat × Nat)) (md : List (List ℚ))
    (hidx : idx.getD i (0, 0, 0) = (a, b, c)) (hmd : md.getD i [] = mdraw)
    (hi : i < pop.length)
    (hmlen : mdraw.length = (pop.getD i []).length)
    (hplen : (proposalAgent ((np_delete pop i).getD a []) ((np_delete pop i).getD b [])
      ((np_delete pop i).getD c []) F r).length = (pop.getD i []).length)
    (j : Nat) (hj : j < (pop.getD i []).length) :
    (generate_children pop cr F r idx md).get? i =
      some (mutate1 pop i a b c mdraw cr F r) ∧
    (mdraw.getD j 0 < cr →
      (mutate1 pop i a b c mdraw cr F r).getD j [] =
        (proposalAgent ((np_delete pop i).getD a []) ((np_delete pop i).getD b [])
          ((np_delete pop i).getD c []) F r).getD j []) ∧
    (¬ mdraw.getD j 0 < cr →
      (mutate1 pop i a b c mdraw cr F r).getD j [] = (pop.getD i []).getD j []) := by
  have hmask : ∀ d : Bool, (mdraw.map (fun u => decide (u < cr))).getD j d =
      decide (mdraw.getD j 0 < cr) := by
    intro d
    exact getD_map _ _ _ (0 : ℚ) d (by omega)
  refine ⟨?_, ?_, ?_⟩
  · rw [generate_children_get pop cr F r idx md i hi, hidx, hmd]
  · intro hlt
    simp only [mutate1]
    rw [getD_zip3With _ _ _ _ j false [] [] [] (by rw [List.length_map]; omega)
      (by omega) hj, hmask]
    rw [if_pos (decide_eq_true hlt)]
  · intro hge
    simp only [mutate1]
    rw [getD_zip3With _ _ _ _ j false [] [] [] (by rw [List.length_map]; omega)
      (by omega) hj, hmask]
    rw [if_neg (fun hdec => hge (of_decide_eq_true hdec))]

/-- Witness for C5: a two-pixel agent whose first draw is below `cr` and
whose second is not — unit 0 comes from the proposal, unit 1 stays the
parent's. -/
theorem generate_children_crossover_mask_witness :
    (mutate1 [[[1], [2]], [[3], [4]]] 0 0 0 0 [0, 1] (1/2) 1 false).getD 0 [] =
      (proposalAgent ((np_delete [[[1], [2]], [[3], [4]]] 0).getD 0 [])
        ((np_delete [[[1], [2]], [[3], [4]]] 0).getD 0 [])
        ((np_delete [[[1], [2]], [[3], [4]]] 0).getD 0 []) 1 false).getD 0 [] ∧
    (mutate1 [[[1], [2]], [[3], [4]]] 0 0 0 0 [0, 1] (1/2) 1 false).getD 1 [] =
      ((([[[1], [2]], [[3], [4]]] : Pop).getD 0 []).getD 1 []) := by
  constructor
  · exact (generate_children_crossover_mask [[[1], [2]], [[3], [4]]] 0 0 0 0 [0, 1]
      (1/2) 1 false [(0, 0, 0)] [[0, 1]] (by simp) (by simp) (by norm_num)
      (by simp) (by simp [proposalAgent, zip3With, np_delete, List.eraseIdx])
      0 (by simp)).2.1 (by norm_num)
  · exact (generate_children_crossover_mask [[[1], [2]], [[3], [4]]] 0 0 0 0 [0, 1]
      (1/2) 1 false [(0, 0, 0)] [[0, 1]] (by simp) (by simp) (by norm_num)
      (by simp) (by simp [proposalAgent, zip3With, np_delete, List.eraseIdx])
      1 (by simp)).2.2 (by norm_num)

/-! ## Compositor lemmas -/

theorem pyIdx_some_bounds (n : Nat) (v : Int) (k : Nat)
    (h : pyIdx n v = some k) : k < n ∧ 0 < n := by
  unfold pyIdx at h
  split_ifs at h with h1 h2
  · injection h with h'
    refine ⟨?_, ?_⟩ <;> omega
  · injection h with h'
    refine ⟨?_, ?_⟩ <;> omega

theorem pyIdx_nonneg (n : Nat) (v : Int) (h0 : 0 ≤ v) (hn : v < (n : Int)) :
    pyIdx n v = some v.toNat := by
  unfold pyIdx
  rw [if_pos ⟨h0, hn⟩]

theorem pyIdx_neg (n : Nat) (v : Int) (h0 : -(n : Int) ≤ v) (hn : v < 0) :
    pyIdx n v = some (v + (n : Int)).toNat := by
  unfold pyIdx
  rw [if_neg (by omega), if_pos ⟨h0, hn⟩]

theorem getD_set' (l : List α) (i j : Nat) (a d : α) (hi : i < l.length) :
    (l.set i a).getD j d = if j = i then a else l.getD j d := by
  by_cases hj : j < l.length
  · rw [getD_eq_getElem _ _ (by simpa using hj), List.getElem_set]
    by_cases hij : i = j
    · subst hij; simp
    · rw [if_neg hij, if_neg (fun h => hij h.symm), getD_eq_getElem _ _ hj]
  · rw [List.getD_eq_default _ _ (by simp only [List.length_set]; omega),
      List.getD_eq_default _ _ (by omega), if_neg (by omega)]

theorem getD_setChan (ch : List (List ℚ)) (xi yi x' y' : Nat) (q : ℚ)
    (hxi : xi < ch.length) (hyi : yi < (ch.getD xi []).length) :
    ((setChan ch xi yi q).getD x' []).getD y' 0 =
      if x' = xi ∧ y' = yi then q else (ch.getD x' []).getD y' 0 := by
  rw [setChan, getD_set' _ _ _ _ _ hxi]
  by_cases hxx : x' = xi
  · rw [if_pos hxx, getD_set' _ _ _ _ _ hyi]
    subst hxx
    by_cases hyy : y' = yi
    · rw [if_pos hyy, if_pos ⟨rfl, hyy⟩]
    · rw [if_neg hyy, if_neg (fun h => hyy h.2)]
  · rw [if_neg hxx, if_neg (fun h => hxx h.1)]

/-- `setPixel` on a well-formed image with resolvable indices and a colour
vector matching the channel count: it succeeds, preserves the shape, writes
`val` across all channels at the resolved pixel, and leaves every other
pixel unchanged. -/
theorem setPixel_spec (C H W : Nat) (im : Image) (x y : Int) (xi yi : Nat)
    (val : List ℚ) (hwf : ImgWF im C H W) (hC : 0 < C)
    (hx : pyIdx H x = some xi) (hy : pyIdx W y = some yi)
    (hv : val.length = C) :
    ∃ im', setPixel im x y val = some im' ∧ ImgWF im' C H W ∧
      ∀ c, c < C → ∀ x' : Nat, x' < H → ∀ y' : Nat, y' < W →
        getPix im' c x' y' =
          if x' = xi ∧ y' = yi then val.getD c 0 else getPix im c x' y' := by
  obtain ⟨hlenC, hch⟩ := hwf
  have hxiH : xi < H := (pyIdx_some_bounds H x xi hx).1
  have hyiW : yi < W := (pyIdx_some_bounds W y yi hy).1
  cases im with
  | nil => rw [List.length_nil] at hlenC; omega
  | cons ch0 rest =>
  have hch0H : ch0.length = H := (hch ch0 (List.mem_cons_self _ _)).1
  obtain ⟨r0, rr, hr0⟩ : ∃ r0 rr, ch0 = r0 :: rr := by
    cases ch0 with
    | nil => rw [List.length_nil] at hch0H; omega
    | cons a b => exact ⟨a, b, rfl⟩
  subst hr0
  have hr0W : r0.length = W :=
    (hch (r0 :: rr) (List.mem_cons_self _ _)).2 r0 (List.mem_cons_self _ _)
  have hsp : setPixel ((r0 :: rr) :: rest) x y val =
      some (List.zipWith (fun ch q => setChan ch xi yi q) ((r0 :: rr) :: rest) val) := by
    unfold setPixel
    rw [show (((r0 :: rr) :: rest : Image).headD []) = r0 :: rr from rfl]
    rw [show ((r0 :: rr : List (List ℚ)).headD []) = r0 from rfl]
    rw [hch0H, hr0W, hx, hy]
    show (if val.length = ((r0 :: rr) :: rest : Image).length then
        some (List.zipWith (fun ch q => setChan ch xi yi q) ((r0 :: rr) :: rest) val)
      else if val.length = 1 then
        some (((r0 :: rr) :: rest : Image).map (fun ch => setChan ch xi yi (val.headD 0)))
      else none) = _
    rw [if_pos (by rw [hv]; exact hlenC.symm)]
  have hlenz : (List.zipWith (fun ch q => setChan ch xi yi q)
      ((r0 :: rr) :: rest) val).length = C := by
    rw [List.length_zipWith, hlenC, hv]
    omega
  refine ⟨_, hsp, ⟨hlenz, ?_⟩, ?_⟩
  · intro ch' hch'
    obtain ⟨k, hk, hkeq⟩ := List.mem_iff_getElem.mp hch'
    rw [List.getElem_zipWith] at hkeq
    have hmem := List.getElem_mem (l := ((r0 :: rr) :: rest : Image))
      (n := k) (by rw [List.length_zipWith] at hk; omega)
    obtain ⟨hlch, hrows⟩ := hch _ hmem
    subst hkeq
    constructor
    · rw [setChan, List.length_set]
      exact hlch
    · intro row hrow
      rw [setChan] at hrow
      rcases List.mem_or_eq_of_mem_set hrow with hmemo | hnew
      · exact hrows _ hmemo
      · subst hnew
        rw [List.length_set]
        refine hrows _ ?_
        rw [getD_eq_getElem _ _ (by omega)]
        exact List.getElem_mem _
  · intro c hc x' hx' y' hy'
    have hc1 : c < (List.zipWith (fun ch q => setChan ch xi yi q)
        ((r0 :: rr) :: rest) val).length := by omega
    have hcim : c < ((r0 :: rr) :: rest : Image).length := by omega
    have hcv : c < val.length := by omega
    have hlch : (((r0 :: rr) :: rest : Image)[c]).length = H :=
      (hch _ (List.getElem_mem hcim)).1
    have hrowlen : ((((r0 :: rr) :: rest : Image)[c]).getD xi []).length = W := by
      rw [getD_eq_getElem _ _ (by omega)]
      exact (hch _ (List.getElem_mem hcim)).2 _ (List.getElem_mem (by omega))
    rw [getPix, getD_eq_getElem _ _ hc1, List.getElem_zipWith,
      getD_setChan _ _ _ _ _ _ (by omega) (by omega), getPix,
      getD_eq_getElem val _ hcv, getD_eq_getElem _ _ hcim]

/-- The per-agent pixel loop on a well-formed image: with in-range integer
positions, enough colour rows of matching channel count, and pairwise
distinct positions, it succeeds; unlisted pixels keep the base value and
each listed position carries exactly its colour vector. -/
theorem applyAgent_spec (C H W : Nat) (hC : 0 < C) :
    ∀ (locs : List (Int × Int)) (pv : List (List ℚ)) (im : Image),
      ImgWF im C H W →
      locs.length ≤ pv.length →
      (∀ p ∈ locs, 0 ≤ p.1 ∧ p.1 < (H : Int) ∧ 0 ≤ p.2 ∧ p.2 < (W : Int)) →
      (∀ v ∈ pv, v.length = C) →
      locs.Nodup →
      ∃ im', applyAgent im locs pv = some im' ∧ ImgWF im' C H W ∧
        (∀ c, c < C → ∀ x' : Nat, x' < H → ∀ y' : Nat, y' < W →
          ((x' : Int), (y' : Int)) ∉ locs → getPix im' c x' y' = getPix im c x' y') ∧
        (∀ j, j < locs.length → ∀ c, c < C →
          getPix im' c (locs.getD j (0, 0)).1.toNat (locs.getD j (0, 0)).2.toNat =
            (pv.getD j []).getD c 0) := by
  intro locs
  induction locs with
  | nil =>
    intro pv im hwf _ _ _ _
    exact ⟨im, rfl, hwf, fun _ _ _ _ _ _ _ => rfl, fun j hj => by simp at hj⟩
  | cons xy rest ih =>
    intro pv im hwf hlen hrange hcol hnd
    obtain ⟨x, y⟩ := xy
    cases pv with
    | nil =>
      rw [List.length_cons, List.length_nil] at hlen
      omega
    | cons v vs =>
      obtain ⟨hx0, hxH, hy0, hyW⟩ := hrange (x, y) (List.mem_cons_self _ _)
      obtain ⟨im1, hset, hwf1, hpt⟩ := setPixel_spec C H W im x y x.toNat y.toNat v
        hwf hC (pyIdx_nonneg H x hx0 hxH) (pyIdx_nonneg W y hy0 hyW)
        (hcol v (List.mem_cons_self _ _))
      obtain ⟨im', happ, hwf', hunch, hlist⟩ :=
        ih vs im1 hwf1
          (by rw [List.length_cons, List.length_cons] at hlen; omega)
          (fun p hp => hrange p (List.mem_cons_of_mem _ hp))
          (fun v' hv' => hcol v' (List.mem_cons_of_mem _ hv'))
          (List.nodup_cons.mp hnd).2
      refine ⟨im', ?_, hwf', ?_, ?_⟩
      · show (setPixel im x y v).bind (fun im1 => applyAgent im1 rest vs) = some im'
        rw [hset]
        exact happ
      · intro c hc x' hx' y' hy' hnmem
        rw [List.mem_cons] at hnmem
        push_neg at hnmem
        obtain ⟨hne, hnrest⟩ := hnmem
        rw [hunch c hc x' hx' y' hy' hnrest, hpt c hc x' hx' y' hy',
          if_neg (fun hand => hne (by simp only [Prod.mk.injEq]; omega))]
      · intro j hj c hc
        cases j with
        | zero =>
          simp only [List.getD_cons_zero]
          have hnrest : ((x.toNat : Int), (y.toNat : Int)) ∉ rest := by
            rw [Int.toNat_of_nonneg hx0, Int.toNat_of_nonneg hy0]
            exact (List.nodup_cons.mp hnd).1
          rw [hunch c hc _ (by omega) _ (by omega) hnrest,
            hpt c hc _ (by omega) _ (by omega), if_pos ⟨rfl, rfl⟩]
        | succ j' =>
          simp only [List.getD_cons_succ]
          exact hlist j' (by rw [List.length_cons] at hj; omega) c hc

/-- Evaluating an `Option`-valued `mapM` whose entries all succeed. -/
theorem mapM_option_get (f : α → Option β) (da : α) (db : β) :
    ∀ (l : List α), (∀ x ∈ l, (f x).isSome = true) →
      ∃ out, l.mapM f = some out ∧ out.length = l.length ∧
        ∀ n, n < l.length → f (l.getD n da) = some (out.getD n db) := by
  intro l
  induction l with
  | nil => exact fun _ => ⟨[], rfl, rfl, fun n hn => by simp at hn⟩
  | cons a t ih =>
    intro hall
    obtain ⟨b, hb⟩ := Option.isSome_iff_exists.mp (hall a (List.mem_cons_self _ _))
    obtain ⟨out, hout, hlen, hget⟩ := ih (fun x hx => hall x (List.mem_cons_of_mem _ hx))
    refine ⟨b :: out, ?_, by simp [hlen], ?_⟩
    · rw [List.mapM_cons, hb, hout]
      rfl
    · intro n hn
      cases n with
      | zero => simpa using hb
      | succ n' =>
        simp only [List.getD_cons_succ]
        exact hget n' (by rw [List.length_cons] at hn; omega)

/-! ## C6: compositor correctness -/

/-- C6 counterexample: the same position listed twice with different
colours.  With base image `[[[5,5],[5,5]]]`, positions `[(0,0), (0,0)]` and
colours `[[0], [1]]`, the produced variant holds `1` at pixel `(0,0)` (the
later write wins), so it does not equal the colour vector `[0]` listed for
that position at index 0 — the claim as stated fails for agents whose
position list has duplicates. -/
theorem generate_image_variants_duplicate_cex :
    getPix ((giVariants (generate_image_variants [[[5, 5], [5, 5]]]
        [[((0 : Int), (0 : Int)), ((0 : Int), (0 : Int))]] [[[0], [1]]])).getD 0 [])
      0 0 0 = 1 ∧
    ((([[[0], [1]]] : List (List (List ℚ))).getD 0 []).getD 0 []).getD 0 0 = 0 ∧
    (1 : ℚ) ≠ 0 := by
  refine ⟨?_, by norm_num, by norm_num⟩
  norm_num [generate_image_variants, pyShape2, applyAgent, setPixel, pyIdx,
    setChan, giVariants, getPix, List.mapM_cons, List.mapM_nil, List.mapM.loop]

/-- C6 (amended): for every well-formed, nonempty base image and every agent
whose positions are in range and **pairwise distinct**, with one colour
vector of full channel count per position, every produced variant equals
the base image at each pixel outside the agent's position list and equals
the agent's colour vector exactly across all channels at each listed
position (a full overwrite, not a blend); the base image is returned
unchanged by the call.  (With a duplicated position, the last listed colour
wins, which is what the counterexample exhibits.) -/
theorem generate_image_variants_spec (img : Image) (C H W : Nat)
    (coords : List (List (Int × Int))) (vals : List (List (List ℚ)))
    (himg : ImgWF img C H W) (hC : 0 < C)
    (hshape : pyShape2 coords = pyShape2 vals)
    (hcnt : ∀ n, n < coords.length →
      (coords.getD n []).length ≤ (vals.getD n []).length)
    (hrange : ∀ locs ∈ coords, ∀ p ∈ locs,
      0 ≤ p.1 ∧ p.1 < (H : Int) ∧ 0 ≤ p.2 ∧ p.2 < (W : Int))
    (hcol : ∀ vrow ∈ vals, ∀ v ∈ vrow, v.length = C)
    (hnd : ∀ locs ∈ coords, locs.Nodup) :
    isOkB (generate_image_variants img coords vals) = true ∧
    giBase (generate_image_variants img coords vals) = img ∧
    (giVariants (generate_image_variants img coords vals)).length = coords.length ∧
    (∀ n, n < coords.length →
      (∀ c, c < C → ∀ x' : Nat, x' < H → ∀ y' : Nat, y' < W →
        ((x' : Int), (y' : Int)) ∉ coords.getD n [] →
        getPix ((giVariants (generate_image_variants img coords vals)).getD n []) c x' y' =
          getPix img c x' y') ∧
      (∀ j, j < (coords.getD n []).length → ∀ c, c < C →
        getPix ((giVariants (generate_image_variants img coords vals)).getD n [])
            c ((coords.getD n []).getD j (0, 0)).1.toNat
            ((coords.getD n []).getD j (0, 0)).2.toNat =
          ((vals.getD n []).getD j []).getD c 0)) := by
  have hcl : coords.length = vals.length := by
    have := congrArg Prod.fst hshape
    simpa [pyShape2] using this
  have hzlen : (coords.zip vals).length = coords.length := by
    rw [List.length_zip]
    omega
  have hagent : ∀ n, n < coords.length →
      ∃ im', applyAgent img (coords.getD n []) (vals.getD n []) = some im' ∧
        ImgWF im' C H W ∧
        (∀ c, c < C → ∀ x' : Nat, x' < H → ∀ y' : Nat, y' < W →
          ((x' : Int), (y' : Int)) ∉ coords.getD n [] →
          getPix im' c x' y' = getPix img c x' y') ∧
        (∀ j, j < (coords.getD n []).length → ∀ c, c < C →
          getPix im' c ((coords.getD n []).getD j (0, 0)).1.toNat
              ((coords.getD n []).getD j (0, 0)).2.toNat =
            ((vals.getD n []).getD j []).getD c 0) := by
    intro n hn
    have hmc : coords.getD n [] ∈ coords := by
      rw [getD_eq_getElem _ _ hn]
      exact List.getElem_mem hn
    have hmv : vals.getD n [] ∈ vals := by
      rw [getD_eq_getElem _ _ (by omega)]
      exact List.getElem_mem (by omega)
    exact applyAgent_spec C H W hC (coords.getD n []) (vals.getD n []) img himg
      (hcnt n hn) (hrange _ hmc) (fun v hv => hcol _ hmv v hv) (hnd _ hmc)
  have hall : ∀ lv ∈ coords.zip vals,
      ((fun lv : List (Int × Int) × List (List ℚ) =>
        applyAgent img lv.1 lv.2) lv).isSome = true := by
    intro lv hm
    obtain ⟨k, hk, hkeq⟩ := List.mem_iff_getElem.mp hm
    rw [List.getElem_zip] at hkeq
    have hkc : k < coords.length := by omega
    obtain ⟨im', happ, _⟩ := hagent k hkc
    rw [← hkeq]
    simp only []
    rw [← getD_eq_getElem coords [] hkc, ← getD_eq_getElem vals [] (by omega), happ]
    rfl
  obtain ⟨out, hout, holen, hoget⟩ :=
    mapM_option_get (fun lv : List (Int × Int) × List (List ℚ) =>
      applyAgent img lv.1 lv.2) ([], []) [] (coords.zip vals) hall
  have hred : generate_image_variants img coords vals = .ok (out, img) := by
    simp only [generate_image_variants, if_pos hshape]
    rw [hout]
  refine ⟨by rw [hred]; rfl, by rw [hred]; rfl, by rw [hred]; simp [giVariants]; omega, ?_⟩
  intro n hn
  have hz : n < (coords.zip vals).length := by omega
  have hget := hoget n (by omega)
  have hzget : (coords.zip vals).getD n ([], []) = (coords.getD n [], vals.getD n []) := by
    rw [getD_eq_getElem _ _ hz, List.getElem_zip,
      getD_eq_getElem coords [] hn, getD_eq_getElem vals [] (by omega)]
  rw [hzget] at hget
  obtain ⟨im', happ, _, hunch, hlist⟩ := hagent n hn
  rw [happ] at hget
  have heq : im' = out.getD n [] := Option.some.inj hget
  rw [hred]
  simp only [giVariants]
  rw [← heq]
  exact ⟨hunch, hlist⟩

/-- Witness for the amended C6: a `2×2` one-channel base image, one agent
writing colour `[7]` at `(0,1)`; the written pixel reads `7` and the
untouched pixel `(1,1)` keeps its base value `4`. -/
theorem generate_image_variants_spec_witness :
    getPix ((giVariants (generate_image_variants [[[1, 2], [3, 4]]]
        [[((0 : Int), (1 : Int))]] [[[7]]])).getD 0 []) 0 0 1 = 7 ∧
    getPix ((giVariants (generate_image_variants [[[1, 2], [3, 4]]]
        [[((0 : Int), (1 : Int))]] [[[7]]])).getD 0 []) 0 1 1 =
      getPix [[[1, 2], [3, 4]]] 0 1 1 := by
  have h := generate_image_variants_spec [[[1, 2], [3, 4]]] 1 2 2
    [[((0 : Int), (1 : Int))]] [[[7]]]
    (by constructor
        · rfl
        · intro ch hch
          simp only [List.mem_singleton] at hch
          subst hch
          refine ⟨rfl, ?_⟩
          intro row hrow
          rcases List.mem_cons.mp hrow with h1 | h1
          · subst h1; rfl
          · rcases List.mem_cons.mp h1 with h2 | h2
            · subst h2; rfl
            · simp at h2)
    (by norm_num) rfl
    (by intro n hn
        have h0 : n = 0 := by simpa [Nat.lt_one_iff] using hn
        subst h0
        simp)
    (by intro locs hlocs p hp
        simp only [List.mem_singleton] at hlocs
        subst hlocs
        simp only [List.mem_singleton] at hp
        subst hp
        norm_num)
    (by intro vrow hvrow v hv
        simp only [List.mem_singleton] at hvrow
        subst hvrow
        simp only [List.mem_singleton] at hv
        subst hv
        rfl)
    (by intro locs hlocs
        simp only [List.mem_singleton] at hlocs
        subst hlocs
        exact List.nodup_singleton _)
  obtain ⟨-, -, -, hprops⟩ := h
  obtain ⟨hunch, hlist⟩ := hprops 0 (by norm_num)
  constructor
  · have := hlist 0 (by simp) 0 (by norm_num)
    simpa using this
  · have := hunch 0 (by norm_num) 1 (by norm_num) 1 (by norm_num)
      (by decide)
    simpa using this

/-! ## C10: negative repaired coordinates index from the end -/

/-- C10: for a square well-formed image of side `size` and an integer
coordinate `v` with `size ≤ v ≤ 2*size-1`, boundary repair yields
`size-1-v`, which is negative (the negative-value rule ran first and is not
re-applied).  `generate_image_variants` then raises no error for that
coordinate: the write silently lands at row `2*size-1-v` — i.e. a
coordinate of `-k` writes at offset `size-k` from the start of the spatial
axis, by python index-from-the-end semantics. -/
theorem negative_coord_write (img : Image) (C size : Nat) (v y : Int)
    (col : List ℚ) (himg : ImgWF img C size size) (hC : 0 < C)
    (hv1 : (size : Int) ≤ v) (hv2 : v ≤ 2 * (size : Int) - 1)
    (hy0 : 0 ≤ y) (hyW : y < (size : Int)) (hcol : col.length = C) :
    repairCoord (size : ℚ) ((v : Int) : ℚ) = (size : ℚ) - 1 - (v : ℚ) ∧
    (size : Int) - 1 - v < 0 ∧
    isOkB (generate_image_variants img [[((size : Int) - 1 - v, y)]] [[col]]) = true ∧
    giBase (generate_image_variants img [[((size : Int) - 1 - v, y)]] [[col]]) = img ∧
    (∀ c, c < C →
      getPix ((giVariants (generate_image_variants img
          [[((size : Int) - 1 - v, y)]] [[col]])).getD 0 [])
        c (2 * (size : Int) - 1 - v).toNat y.toNat = col.getD c 0) := by
  have hsz : 1 ≤ size := by omega
  have hxidx : pyIdx size ((size : Int) - 1 - v) =
      some ((size : Int) - 1 - v + size).toNat :=
    pyIdx_neg size _ (by omega) (by omega)
  have hyidx : pyIdx size y = some y.toNat := pyIdx_nonneg size y hy0 hyW
  obtain ⟨im1, hset, hwf1, hpt⟩ := setPixel_spec C size size img
    ((size : Int) - 1 - v) y ((size : Int) - 1 - v + size).toNat y.toNat col
    himg hC hxidx hyidx hcol
  have happ : applyAgent img [((size : Int) - 1 - v, y)] [col] = some im1 := by
    show (setPixel img ((size : Int) - 1 - v) y col).bind
      (fun im1 => applyAgent im1 [] ([] : List (List ℚ))) = some im1
    rw [hset]
    rfl
  have hred : generate_image_variants img [[((size : Int) - 1 - v, y)]] [[col]] =
      .ok ([im1], img) := by
    simp only [generate_image_variants]
    rw [if_pos (show pyShape2 [[((size : Int) - 1 - v, y)]] = pyShape2 [[col]] from rfl)]
    rw [show ([[((size : Int) - 1 - v, y)]].zip [[col]]) =
      [([((size : Int) - 1 - v, y)], [col])] from rfl]
    rw [List.mapM_cons, List.mapM_nil]
    rw [show applyAgent img ([((size : Int) - 1 - v, y)], [col]).1
      ([((size : Int) - 1 - v, y)], [col]).2 = some im1 from happ]
    rfl
  refine ⟨?_, by omega, by rw [hred]; rfl, by rw [hred]; rfl, ?_⟩
  · have hv0 : (0 : ℚ) ≤ ((v : Int) : ℚ) := by exact_mod_cast (by omega : (0 : Int) ≤ v)
    have hvs : ((size : Nat) : ℚ) ≤ ((v : Int) : ℚ) := by exact_mod_cast hv1
    unfold repairCoord repairLow repairHighCoord
    rw [if_neg (not_lt.mpr hv0), if_pos (by linarith)]
  · intro c hc
    rw [hred]
    simp only [giVariants, List.getD_cons_zero]
    have hxlt : ((size : Int) - 1 - v + size).toNat < size := by omega
    have hylt : y.toNat < size := by omega
    have hchar := hpt c hc _ hxlt _ hylt
    rw [if_pos ⟨rfl, rfl⟩] at hchar
    have hidx : (2 * (size : Int) - 1 - v).toNat = ((size : Int) - 1 - v + size).toNat := by
      omega
    rw [hidx]
    exact hchar

/-- Witness for C10 at `size = 2`, `v = 2` (repair gives `-1`), `y = 0`:
the write lands at row `1` (the last row), no error is raised. -/
theorem negative_coord_write_witness :
    getPix ((giVariants (generate_image_variants [[[1, 2], [3, 4]]]
        [[((-1 : Int), (0 : Int))]] [[[7]]])).getD 0 []) 0 1 0 = 7 := by
  have h := (negative_coord_write [[[1, 2], [3, 4]]] 1 2 2 0 [7]
    (by constructor
        · rfl
        · intro ch hch
          simp only [List.mem_singleton] at hch
          subst hch
          refine ⟨rfl, ?_⟩
          intro row hrow
          rcases List.mem_cons.mp hrow with h1 | h1
          · subst h1; rfl
          · rcases List.mem_cons.mp h1 with h2 | h2
            · subst h2; rfl
            · simp at h2)
    (by norm_num) (by norm_num) (by norm_num) (by norm_num) (by norm_num)
    rfl).2.2.2.2 0 (by norm_num)
  simpa using h

/-! ## Evaluation-step lemmas -/

theorem column_map (model : Image → List ℚ) (batch : List Image) (j : Nat)
    (h : ∀ im ∈ batch, j < (model im).length) :
    column (batch.map model) j = some (logitColumn model batch j) := by
  induction batch with
  | nil => rfl
  | cons b t ih =>
    have hj := h b (List.mem_cons_self _ _)
    show ((b :: t).map model).mapM (fun r => r.get? j) = _
    rw [List.map_cons, List.mapM_cons]
    rw [show (model b).get? j = some ((model b).getD j 0) by
      rw [List.get?_eq_getElem?, List.getElem?_eq_getElem hj, getD_eq_getElem _ _ hj]]
    have ih' := ih (fun im hm => h im (List.mem_cons_of_mem _ hm))
    rw [show (t.map model).mapM (fun r => r.get? j) = some (logitColumn model t j) from ih']
    rfl

theorem zipWith_map_same (f : β → β → γ) (g h : α → β) (l : List α) :
    List.zipWith f (l.map g) (l.map h) = l.map (fun x => f (g x) (h x)) := by
  induction l with
  | nil => rfl
  | cons x t ih => simp [ih]

theorem stretchTo_self (L : Nat) (xs : List α) (h : xs.length = L) :
    stretchTo L xs = xs := by
  unfold stretchTo
  rw [if_pos h]

theorem stretchTo_length (L : Nat) (xs : List α) (h : xs.length = L ∨ xs.length = 1) :
    (stretchTo L xs).length = L := by
  unfold stretchTo
  split_ifs with he
  · exact he
  · rcases xs with _ | ⟨x, _ | ⟨y, t⟩⟩
    · simp only [List.length_nil] at he h
      omega
    · simp only [List.length_replicate]
    · simp only [List.length_cons] at he h ⊢
      omega

theorem bcast2Len_eq_max (a b : Nat) (h : a = b ∨ a = 1 ∨ b = 1)
    (ha : 0 < a) (hb : 0 < b) : bcast2Len a b = some (max a b) := by
  unfold bcast2Len
  split_ifs with h1 h2 h3
  · exact congrArg some (by omega)
  · exact congrArg some (by omega)
  · exact congrArg some (by omega)
  · rcases h with h | h | h
    · exact absurd h h1
    · exact absurd h h2
    · exact absurd h h3

theorem bcast2Len_none (a b : Nat) (h1 : a ≠ b) (h2 : a ≠ 1) (h3 : b ≠ 1) :
    bcast2Len a b = none := by
  unfold bcast2Len
  rw [if_neg h1, if_neg h2, if_neg h3]

theorem bzipWith_eq (f : α → β → γ) (xs : List α) (ys : List β)
    (h : xs.length = ys.length) :
    bzipWith f xs ys = some (List.zipWith f xs ys) := by
  unfold bzipWith
  rw [show bcast2Len xs.length ys.length = some xs.length by
    unfold bcast2Len; rw [if_pos h]]
  show some (List.zipWith f (stretchTo xs.length xs) (stretchTo xs.length ys)) = _
  rw [stretchTo_self _ _ rfl, stretchTo_self _ _ h.symm]

theorem bzipWith_none (f : α → β → γ) (xs : List α) (ys : List β)
    (h1 : xs.length ≠ ys.length) (h2 : xs.length ≠ 1) (h3 : ys.length ≠ 1) :
    bzipWith f xs ys = none := by
  unfold bzipWith
  rw [bcast2Len_none _ _ h1 h2 h3]
  rfl

theorem bzipWith_max (f : α → β → γ) (xs : List α) (ys : List β)
    (h : xs.length = ys.length ∨ xs.length = 1 ∨ ys.length = 1)
    (hx : 0 < xs.length) (hy : 0 < ys.length) :
    bzipWith f xs ys = some (List.zipWith f
      (stretchTo (max xs.length ys.length) xs)
      (stretchTo (max xs.length ys.length) ys)) := by
  unfold bzipWith
  rw [bcast2Len_eq_max _ _ h hx hy]
  rfl

theorem bzip3With_eq (f : α → β → γ → δ) (xs : List α) (ys : List β) (zs : List γ)
    (h1 : xs.length = ys.length) (h2 : xs.length = zs.length) :
    bzip3With f xs ys zs = some (zip3With f xs ys zs) := by
  unfold bzip3With
  rw [show bcast2Len xs.length ys.length = some xs.length by
    unfold bcast2Len; rw [if_pos h1]]
  show (bcast2Len xs.length zs.length).bind _ = _
  rw [show bcast2Len xs.length zs.length = some xs.length by
    unfold bcast2Len; rw [if_pos h2]]
  show some (zip3With f (stretchTo xs.length xs) (stretchTo xs.length ys)
    (stretchTo xs.length zs)) = _
  rw [stretchTo_self _ _ rfl, stretchTo_self _ _ h1.symm, stretchTo_self _ _ h2.symm]

theorem bzip3With_max (f : α → β → γ → δ) (xs : List α) (ys : List β) (zs : List γ)
    (hxy : xs.length = ys.length ∨ xs.length = 1 ∨ ys.length = 1)
    (hx : 0 < xs.length) (hy : 0 < ys.length) (hz : 0 < zs.length)
    (hz2 : max xs.length ys.length = zs.length ∨ max xs.length ys.length = 1 ∨
      zs.length = 1) :
    bzip3With f xs ys zs = some (zip3With f
      (stretchTo (max (max xs.length ys.length) zs.length) xs)
      (stretchTo (max (max xs.length ys.length) zs.length) ys)
      (stretchTo (max (max xs.length ys.length) zs.length) zs)) := by
  unfold bzip3With
  rw [bcast2Len_eq_max _ _ hxy hx hy]
  show (bcast2Len (max xs.length ys.length) zs.length).bind _ = _
  rw [bcast2Len_eq_max _ _ hz2 (by omega) hz]
  rfl

/-- `evaluation_step` after the four logit-column extractions succeed. -/
theorem evaluation_step_cols (model : Image → List ℚ) (p c : List Image)
    (t a : Nat) (pt pa ct ca : List ℚ)
    (h1 : column (p.map model) t = some pt) (h2 : column (p.map model) a = some pa)
    (h3 : column (c.map model) t = some ct) (h4 : column (c.map model) a = some ca) :
    evaluation_step model p c t a = evalCompare pt pa ct ca := by
  simp only [evaluation_step]
  rw [h1, h2, h3, h4]

theorem evalCompare_some (pt pa ct ca : List ℚ) (mask : List Bool)
    (hm : bzipWith (fun cd pd => decide (pd ≤ cd))
      (List.zipWith (fun x y => x - y) ct ca)
      (List.zipWith (fun x y => x - y) pt pa) = some mask) :
    evalCompare pt pa ct ca = evalSelect mask ct pt ca pa := by
  simp only [evalCompare]
  rw [hm]

theorem evalCompare_none (pt pa ct ca : List ℚ)
    (hm : bzipWith (fun cd pd => decide (pd ≤ cd))
      (List.zipWith (fun x y => x - y) ct ca)
      (List.zipWith (fun x y => x - y) pt pa) = none) :
    evalCompare pt pa ct ca = .error PyError.broadcastError := by
  simp only [evalCompare]
  rw [hm]

theorem evalSelect_some (mask : List Bool) (ct pt ca pa newT newA : List ℚ)
    (hT : bzip3With (fun m cv pv => if m then cv else pv) mask ct pt = some newT)
    (hA : bzip3With (fun m cv pv => if m then cv else pv) mask ca pa = some newA) :
    evalSelect mask ct pt ca pa =
      if newT.isEmpty ∨ newA.isEmpty then .error .emptyReduction
      else .ok (mask, newT, newA) := by
  simp only [evalSelect]
  rw [hT, hA]

/-- With equal nonempty batch lengths and in-range class indices,
`evaluation_step` succeeds with the selection mask
`child divergence ≥ parent divergence` and the mask-selected logits. -/
theorem evaluation_step_equal (model : Image → List ℚ) (p c : List Image)
    (t a : Nat) (hlen : p.length = c.length) (hN : 0 < p.length)
    (hpcls : ∀ im ∈ p, t < (model im).length ∧ a < (model im).length)
    (hccls : ∀ im ∈ c, t < (model im).length ∧ a < (model im).length) :
    evaluation_step model p c t a = .ok
      (List.zipWith (fun cd pd => decide (pd ≤ cd))
        (divergences model c t a) (divergences model p t a),
      zip3With (fun m cv pv => if m then cv else pv)
        (List.zipWith (fun cd pd => decide (pd ≤ cd))
          (divergences model c t a) (divergences model p t a))
        (logitColumn model c t) (logitColumn model p t),
      zip3With (fun m cv pv => if m then cv else pv)
        (List.zipWith (fun cd pd => decide (pd ≤ cd))
          (divergences model c t a) (divergences model p t a))
        (logitColumn model c a) (logitColumn model p a)) := by
  have hdc : (divergences model c t a).length = c.length := List.length_map _ _
  have hdp : (divergences model p t a).length = p.length := List.length_map _ _
  have hml : (List.zipWith (fun cd pd => decide (pd ≤ cd))
      (divergences model c t a) (divergences model p t a)).length = p.length := by
    rw [List.length_zipWith]
    omega
  have hct : (logitColumn model c t).length = c.length := List.length_map _ _
  have hca : (logitColumn model c a).length = c.length := List.length_map _ _
  have hpt : (logitColumn model p t).length = p.length := List.length_map _ _
  have hpa : (logitColumn model p a).length = p.length := List.length_map _ _
  rw [evaluation_step_cols model p c t a _ _ _ _
    (column_map _ _ _ (fun im h => (hpcls im h).1))
    (column_map _ _ _ (fun im h => (hpcls im h).2))
    (column_map _ _ _ (fun im h => (hccls im h).1))
    (column_map _ _ _ (fun im h => (hccls im h).2))]
  rw [evalCompare_some _ _ _ _ _ (by
    rw [show List.zipWith (fun x y => x - y) (logitColumn model c t)
        (logitColumn model c a) = divergences model c t a from zipWith_map_same _ _ _ _]
    rw [show List.zipWith (fun x y => x - y) (logitColumn model p t)
        (logitColumn model p a) = divergences model p t a from zipWith_map_same _ _ _ _]
    exact bzipWith_eq _ _ _ (by omega))]
  rw [evalSelect_some _ _ _ _ _ _ _
    (bzip3With_eq _ _ _ _ (by omega) (by omega))
    (bzip3With_eq _ _ _ _ (by omega) (by omega))]
  rw [if_neg]
  intro hemp
  rcases hemp with hemp | hemp <;>
    rw [List.isEmpty_iff_length_eq_zero, length_zip3With] at hemp <;> omega

/-! ## C1: the selection mask -/

/-- C1: with equal-length nonempty parent/child batches and class indices in
range, `evaluation_step` succeeds and for every agent `i` its selection-mask
entry is `true` if and only if the child's divergence (target-class logit
minus actual-class logit of the child's image variant) is greater than or
equal to the parent's divergence — ties select the child (the source uses
`>=`). -/
theorem evaluation_step_mask_divergence (model : Image → List ℚ)
    (p c : List Image) (t a : Nat)
    (hlen : p.length = c.length) (hN : 0 < p.length)
    (hpcls : ∀ im ∈ p, t < (model im).length ∧ a < (model im).length)
    (hccls : ∀ im ∈ c, t < (model im).length ∧ a < (model im).length) :
    isOkB (evaluation_step model p c t a) = true ∧
    ∀ i, i < p.length →
      (evalMask (evaluation_step model p c t a) i = true ↔
        (model (p.getD i [])).getD t 0 - (model (p.getD i [])).getD a 0 ≤
          (model (c.getD i [])).getD t 0 - (model (c.getD i [])).getD a 0) := by
  rw [evaluation_step_equal model p c t a hlen hN hpcls hccls]
  refine ⟨rfl, ?_⟩
  intro i hi
  simp only [evalMask]
  have hdc : (divergences model c t a).length = c.length := List.length_map _ _
  have hdp : (divergences model p t a).length = p.length := List.length_map _ _
  rw [getD_zipWith _ _ _ _ 0 0 false (by omega) (by omega)]
  rw [show (divergences model c t a).getD i 0 =
      (model (c.getD i [])).getD t 0 - (model (c.getD i [])).getD a 0 by
    unfold divergences; exact getD_map _ _ _ [] 0 (by omega)]
  rw [show (divergences model p t a).getD i 0 =
      (model (p.getD i [])).getD t 0 - (model (p.getD i [])).getD a 0 by
    unfold divergences; exact getD_map _ _ _ [] 0 (by omega)]
  exact decide_eq_true_iff

/-- Witness for C1: one parent variant scoring 0 and one child variant
scoring 1 under the stub classifier — the child's divergence is larger, so
the mask selects the child. -/
theorem evaluation_step_mask_divergence_witness :
    evalMask (evaluation_step stubModel [[[[0]]]] [[[[1]]]] 0 1) 0 = true :=
  ((evaluation_step_mask_divergence stubModel [[[[0]]]] [[[[1]]]] 0 1 rfl
      (by norm_num)
      (by intro im _; simp [stubModel])
      (by intro im _; simp [stubModel])).2 0 (by norm_num)).mpr
    (by norm_num [stubModel, getPix])

/-! ## C8: no eager batch-shape check in the evaluator -/

/-- Helper: with incompatible batch lengths (unequal, neither 1) and class
indices in range, the evaluator fails with a broadcast error — after both
classifier columns were already extracted. -/
theorem evaluation_step_incompat (model : Image → List ℚ) (p c : List Image)
    (t a : Nat)
    (hpcls : ∀ im ∈ p, t < (model im).length ∧ a < (model im).length)
    (hccls : ∀ im ∈ c, t < (model im).length ∧ a < (model im).length)
    (h1 : p.length ≠ c.length) (h2 : p.length ≠ 1) (h3 : c.length ≠ 1) :
    evaluation_step model p c t a = .error PyError.broadcastError := by
  rw [evaluation_step_cols model p c t a _ _ _ _
    (column_map _ _ _ (fun im h => (hpcls im h).1))
    (column_map _ _ _ (fun im h => (hpcls im h).2))
    (column_map _ _ _ (fun im h => (hccls im h).1))
    (column_map _ _ _ (fun im h => (hccls im h).2))]
  exact evalCompare_none _ _ _ _ (bzipWith_none _ _ _
    (by simp only [List.length_zipWith, logitColumn, List.length_map]; omega)
    (by simp only [List.length_zipWith, logitColumn, List.length_map]; omega)
    (by simp only [List.length_zipWith, logitColumn, List.length_map]; omega))

/-- Helper: with both batches nonempty, class indices in range, and batch
lengths equal or one of them 1 (torch broadcasting), the evaluator
succeeds. -/
theorem evaluation_step_ok_of_compat (model : Image → List ℚ) (p c : List Image)
    (t a : Nat) (hp0 : 0 < p.length) (hc0 : 0 < c.length)
    (hcompat : p.length = c.length ∨ p.length = 1 ∨ c.length = 1)
    (hpcls : ∀ im ∈ p, t < (model im).length ∧ a < (model im).length)
    (hccls : ∀ im ∈ c, t < (model im).length ∧ a < (model im).length) :
    isOkB (evaluation_step model p c t a) = true := by
  have hct : (logitColumn model c t).length = c.length := List.length_map _ _
  have hca : (logitColumn model c a).length = c.length := List.length_map _ _
  have hpt : (logitColumn model p t).length = p.length := List.length_map _ _
  have hpa : (logitColumn model p a).length = p.length := List.length_map _ _
  rw [evaluation_step_cols model p c t a _ _ _ _
    (column_map _ _ _ (fun im h => (hpcls im h).1))
    (column_map _ _ _ (fun im h => (hpcls im h).2))
    (column_map _ _ _ (fun im h => (hccls im h).1))
    (column_map _ _ _ (fun im h => (hccls im h).2))]
  set dc := List.zipWith (fun x y => x - y) (logitColumn model c t)
    (logitColumn model c a) with hdc_def
  set dp := List.zipWith (fun x y => x - y) (logitColumn model p t)
    (logitColumn model p a) with hdp_def
  have hdcl : dc.length = c.length := by
    rw [hdc_def, List.length_zipWith]; omega
  have hdpl : dp.length = p.length := by
    rw [hdp_def, List.length_zipWith]; omega
  rw [evalCompare_some _ _ _ _ _
    (bzipWith_max (fun cd pd => decide (pd ≤ cd)) dc dp (by omega) (by omega) (by omega))]
  set M := max dc.length dp.length with hM_def
  set mask := List.zipWith (fun cd pd => decide (pd ≤ cd))
    (stretchTo M dc) (stretchTo M dp) with hmask_def
  have hmaskl : mask.length = M := by
    rw [hmask_def, List.length_zipWith, stretchTo_length _ _ (by omega),
      stretchTo_length _ _ (by omega)]
    omega
  rw [evalSelect_some mask _ _ _ _ _ _
    (bzip3With_max _ mask (logitColumn model c t) (logitColumn model p t)
      (by omega) (by omega) (by omega) (by omega) (by omega))
    (bzip3With_max _ mask (logitColumn model c a) (logitColumn model p a)
      (by omega) (by omega) (by omega) (by omega) (by omega))]
  rw [if_neg]
  · rfl
  · intro hemp
    rcases hemp with hemp | hemp <;>
      rw [List.isEmpty_iff_length_eq_zero, length_zip3With,
        stretchTo_length _ _ (by omega), stretchTo_length _ _ (by omega),
        stretchTo_length _ _ (by omega)] at hemp <;> omega

/-- C8 counterexample: a parent batch of 2 images and a child batch of 1
image have disagreeing shapes, yet the evaluator raises nothing at all —
the length-1 child batch silently broadcasts against the parent batch and
evaluation succeeds.  There is no eager ShapeMismatch check. -/
theorem evaluation_step_no_eager_check_cex :
    isOkB (evaluation_step stubModel [[[[0]]], [[[1]]]] [[[[0]]]] 0 1) = true ∧
    ([[[[0]]], [[[1]]]] : List Image).length ≠ ([[[[0]]]] : List Image).length := by
  constructor
  · exact evaluation_step_ok_of_compat stubModel _ _ 0 1 (by norm_num) (by norm_num)
      (Or.inr (Or.inr rfl))
      (by intro im _; simp [stubModel])
      (by intro im _; simp [stubModel])
  · norm_num

/-- C8 (amended): `evaluation_step` performs no explicit batch-shape check
and queries the classifier on both batches unconditionally; a batch-length
disagreement surfaces only at the divergence comparison, as a broadcast
error, and only when neither batch has length one — a length-one batch
broadcasts silently.  With both batches nonempty and class indices in
range, evaluation succeeds iff the lengths are equal or one of them is 1,
and fails with the broadcast error exactly otherwise. -/
theorem evaluation_step_broadcast_spec (model : Image → List ℚ)
    (p c : List Image) (t a : Nat) (hp0 : 0 < p.length) (hc0 : 0 < c.length)
    (hpcls : ∀ im ∈ p, t < (model im).length ∧ a < (model im).length)
    (hccls : ∀ im ∈ c, t < (model im).length ∧ a < (model im).length) :
    (isOkB (evaluation_step model p c t a) = true ↔
      (p.length = c.length ∨ p.length = 1 ∨ c.length = 1)) ∧
    ((p.length ≠ c.length ∧ p.length ≠ 1 ∧ c.length ≠ 1) →
      evaluation_step model p c t a = .error PyError.broadcastError) := by
  refine ⟨⟨?_, ?_⟩, fun hn => evaluation_step_incompat model p c t a hpcls hccls
    hn.1 hn.2.1 hn.2.2⟩
  · intro hok
    by_contra hn
    push_neg at hn
    rw [evaluation_step_incompat model p c t a hpcls hccls hn.1 hn.2.1 hn.2.2] at hok
    simp [isOkB] at hok
  · intro hcompat
    exact evaluation_step_ok_of_compat model p c t a hp0 hc0 hcompat hpcls hccls

/-- Witness for the amended C8: equal-length singleton batches evaluate
successfully. -/
theorem evaluation_step_broadcast_spec_witness :
    isOkB (evaluation_step stubModel [[[[0]]]] [[[[0]]]] 0 1) = true :=
  (evaluation_step_broadcast_spec stubModel [[[[0]]]] [[[[0]]]] 0 1
    (by norm_num) (by norm_num)
    (by intro im _; simp [stubModel])
    (by intro im _; simp [stubModel])).1.mpr (Or.inl rfl)

/-! ## C9: one generation step -/

/-- C9: whenever `evolution_step` succeeds, the coordinate children are
`generate_children` with integer rounding enabled and the colour children
`generate_children` with rounding disabled — both with the same `cr` and
`F` — each boundary-repaired, and the next-generation population is
selected by the single per-agent mask applied identically to both arrays:
agent `i`'s next coords and colours both come from the child when
`mask[i]` is true and both from the parent when it is false. -/
theorem evolution_step_orchestration (model : Image → List ℚ) (img : Image)
    (pcoords pvals : Pop) (t a : Nat) (cr F : ℚ)
    (idxC : List (Nat × Nat × Nat)) (mdC : List (List ℚ))
    (idxV : List (Nat × Nat × Nat)) (mdV : List (List ℚ))
    (mask : List Bool) (nc nv : Pop) (stop : Bool) (best : Option (List Nat))
    (h : evolution_step model img pcoords pvals t a cr F idxC mdC idxV mdV =
      .ok (mask, nc, nv, stop, best)) :
    nc = selectPop mask
      (repairCoordsPop (((img.headD []).length : Nat) : ℚ)
        (generate_children pcoords cr F true idxC mdC)) pcoords ∧
    nv = selectPop mask
      (repairColorsPop (generate_children pvals cr F false idxV mdV)) pvals ∧
    (∀ i, i < mask.length → i < pcoords.length →
      nc.getD i [] = if mask.getD i false then
        (repairCoordsPop (((img.headD []).length : Nat) : ℚ)
          (generate_children pcoords cr F true idxC mdC)).getD i []
      else pcoords.getD i []) ∧
    (∀ i, i < mask.length → i < pvals.length →
      nv.getD i [] = if mask.getD i false then
        (repairColorsPop (generate_children pvals cr F false idxV mdV)).getD i []
      else pvals.getD i []) := by
  simp only [evolution_step] at h
  cases hg1 : generate_image_variants img (toPairs pcoords) pvals with
  | error e => rw [hg1] at h; simp at h
  | ok pr =>
    obtain ⟨pimgs, base1⟩ := pr
    rw [hg1] at h
    dsimp only at h
    cases hg2 : generate_image_variants img
        (toPairs (repairCoordsPop (((img.headD []).length : Nat) : ℚ)
          (generate_children pcoords cr F true idxC mdC)))
        (repairColorsPop (generate_children pvals cr F false idxV mdV)) with
    | error e => rw [hg2] at h; simp at h
    | ok cpr =>
      obtain ⟨cimgs, base2⟩ := cpr
      rw [hg2] at h
      dsimp only at h
      cases he : evaluation_step model pimgs cimgs t a with
      | error e => rw [he] at h; simp at h
      | ok r =>
        obtain ⟨m, newT, newA⟩ := r
        rw [he] at h
        dsimp only at h
        simp only [Except.ok.injEq, Prod.mk.injEq] at h
        obtain ⟨hm, hnc, hnv, _, _⟩ := h
        subst hm
        have hclen : (repairCoordsPop (((img.headD []).length : Nat) : ℚ)
            (generate_children pcoords cr F true idxC mdC)).length = pcoords.length := by
          simp [repairCoordsPop, generate_children]
        have hvlen : (repairColorsPop
            (generate_children pvals cr F false idxV mdV)).length = pvals.length := by
          simp [repairColorsPop, generate_children]
        refine ⟨hnc.symm, hnv.symm, ?_, ?_⟩
        · intro i hi hip
          rw [← hnc]
          exact getD_zip3With _ _ _ _ i false [] [] [] hi (by omega) hip
        · intro i hi hip
          rw [← hnv]
          exact getD_zip3With _ _ _ _ i false [] [] [] hi (by omega) hip

/-- Witness for C9: a full two-agent, one-pixel generation on a `2x2`
one-channel image with `cr = 0` (no crossover) and `F = 0` succeeds, the
mask selects both children (ties select the child), and the next-generation
coordinates are the selected children. -/
theorem evolution_step_orchestration_witness :
    ([[[(0 : ℚ), 0]], [[0, 1]]] : Pop) = selectPop [true, true]
      (repairCoordsPop ((((([[[(0 : ℚ), 0], [0, 0]]] : Image).headD []).length : Nat) : ℚ))
        (generate_children [[[(0 : ℚ), 0]], [[0, 1]]] 0 0 true
          [(0, 0, 0), (0, 0, 0)] [[1], [1]]))
      [[[(0 : ℚ), 0]], [[0, 1]]] := by
  have hd : decide ((1:ℚ) < 0) = false := by norm_num
  have hC : generate_children [[[(0 : ℚ), 0]], [[0, 1]]] 0 0 true
      [(0, 0, 0), (0, 0, 0)] [[1], [1]] = [[[0, 0]], [[0, 1]]] := by
    simp only [generate_children, mutate1, proposalAgent, zip3With, np_delete,
      List.eraseIdx, hd,
      show List.range ([[[(0 : ℚ), 0]], [[0, 1]]] : Pop).length = [0, 1] from rfl,
      List.map_cons, List.map_nil, List.getD_cons_zero, List.getD_cons_succ,
      Bool.false_eq_true, if_false, ite_false, if_true, ite_true]
  have hV : generate_children [[[(1 : ℚ)]], [[1]]] 0 0 false
      [(0, 0, 0), (0, 0, 0)] [[1], [1]] = [[[1]], [[1]]] := by
    simp only [generate_children, mutate1, proposalAgent, zip3With, np_delete,
      List.eraseIdx, hd,
      show List.range ([[[(1 : ℚ)]], [[1]]] : Pop).length = [0, 1] from rfl,
      List.map_cons, List.map_nil, List.getD_cons_zero, List.getD_cons_succ,
      Bool.false_eq_true, if_false, ite_false, if_true, ite_true]
  have hRC : repairCoordsPop (2 : ℚ) [[[(0 : ℚ), 0]], [[0, 1]]] =
      [[[0, 0]], [[0, 1]]] := by
    norm_num [repairCoordsPop, repairCoord, repairLow, repairHighCoord]
  have hRV : repairColorsPop [[[(1 : ℚ)]], [[1]]] = [[[1]], [[1]]] := by
    norm_num [repairColorsPop, repairColor, repairLow, repairHighColor]
  have hTP : toPairs [[[(0 : ℚ), 0]], [[0, 1]]] = [[(0, 0)], [(0, 1)]] := by
    norm_num [toPairs, qfloor, Int.zero_fdiv, Int.fdiv_one]
  have hPV : generate_image_variants [[[(0 : ℚ), 0], [0, 0]]] [[(0, 0)], [(0, 1)]]
      [[[1]], [[1]]] = .ok ([[[[1, 0], [0, 0]]], [[[0, 1], [0, 0]]]],
        [[[0, 0], [0, 0]]]) := by
    norm_num [generate_image_variants, pyShape2, applyAgent, setPixel, setChan,
      pyIdx, List.mapM_cons, List.mapM_nil, List.mapM.loop]
  have hcol0 : column (List.map stubModel2
      [[[[(1 : ℚ), 0], [0, 0]]], [[[0, 1], [0, 0]]]]) 0 = some [1, 0] := by
    norm_num [column, stubModel2, getPix, List.mapM_cons, List.mapM_nil, List.mapM.loop]
  have hcol1 : column (List.map stubModel2
      [[[[(1 : ℚ), 0], [0, 0]]], [[[0, 1], [0, 0]]]]) 1 = some [0, 1] := by
    norm_num [column, stubModel2, getPix, List.mapM_cons, List.mapM_nil, List.mapM.loop]
  have hE : evaluation_step stubModel2 [[[[1, 0], [0, 0]]], [[[0, 1], [0, 0]]]]
      [[[[1, 0], [0, 0]]], [[[0, 1], [0, 0]]]] 0 1 =
      .ok ([true, true], [1, 0], [0, 1]) := by
    rw [evaluation_step_cols stubModel2 _ _ 0 1 [1, 0] [0, 1] [1, 0] [0, 1]
      hcol0 hcol1 hcol0 hcol1]
    rw [evalCompare_some _ _ _ _ [true, true] (by
      norm_num [bzipWith, bcast2Len, stretchTo])]
    rw [evalSelect_some _ _ _ _ _ [1, 0] [0, 1]
      (by norm_num [bzip3With, bcast2Len, stretchTo, zip3With])
      (by norm_num [bzip3With, bcast2Len, stretchTo, zip3With])]
    norm_num
  have hS : stopping_criterion [1, 0] [0, 1] = (true, some [0]) := by
    norm_num [stopping_criterion, show List.range 2 = [0, 1] from rfl]
  have hEval : evolution_step stubModel2 [[[0, 0], [0, 0]]]
      [[[0, 0]], [[0, 1]]] [[[1]], [[1]]] 0 1 0 0
      [(0, 0, 0), (0, 0, 0)] [[1], [1]] [(0, 0, 0), (0, 0, 0)] [[1], [1]] =
      .ok ([true, true], [[[0, 0]], [[0, 1]]], [[[1]], [[1]]], true, some [0]) := by
    simp only [evolution_step]
    rw [show ((([[[(0 : ℚ), 0], [0, 0]]] : Image).headD []).length : ℚ) = (2 : ℚ)
      from by norm_num]
    rw [hC, hV, hRC, hRV, hTP, hPV]
    dsimp only
    rw [hE]
    dsimp only
    rw [hS]
    norm_num [selectPop, zip3With]
  exact (evolution_step_orchestration stubModel2 [[[0, 0], [0, 0]]]
    [[[0, 0]], [[0, 1]]] [[[1]], [[1]]] 0 1 0 0
    [(0, 0, 0), (0, 0, 0)] [[1], [1]] [(0, 0, 0), (0, 0, 0)] [[1], [1]]
    [true, true] [[[0, 0]], [[0, 1]]] [[[1]], [[1]]] true (some [0]) hEval).1
end PixelAttack
